import Mathlib

/-!
Verification of the simulation core of `ultra_tetris_hdr.py`.

The board is a list of rows, each row a list of `Int` cells
(`0` empty, `1..7` locked piece material, `-1` the CLEARING sentinel).
Shape bitmaps are lists of rows of `Nat` (`0`/`1`).  Machine integers of
the source are modelled as `Int`/`Nat`; list indexing out of range reads
a default (the theorems carry the bounds under which the source performs
the same accesses).
-/

-- ---------------------------------------------------------------------
-- Configuration constants (from the GAME CONFIG section of the source)
-- ---------------------------------------------------------------------

def COLS : Nat := 10
def ROWS : Nat := 20
def ENTRY_DELAY : Nat := 10
def DAS_DELAY : Nat := 16
def DAS_RATE : Nat := 6
def max_lock_delay : Nat := 30
def line_clear_delay : Nat := 20

/-- The seven tetromino bitmaps (`SHAPES` in the source). -/
def SHAPES : List (List (List Nat)) :=
  [ [[0,0,0,0],[1,1,1,1],[0,0,0,0],[0,0,0,0]],
    [[0,1,0],[1,1,1],[0,0,0]],
    [[0,1,1],[1,1,0],[0,0,0]],
    [[1,1,0],[0,1,1],[0,0,0]],
    [[1,1],[1,1]],
    [[0,0,1],[1,1,1],[0,0,0]],
    [[1,0,0],[1,1,1],[0,0,0]] ]

-- ---------------------------------------------------------------------
-- Cell access helpers
-- ---------------------------------------------------------------------

/-- Cell of a shape bitmap at row `y`, column `x` (0 outside). -/
def shapeCell (shape : List (List Nat)) (y x : Nat) : Nat :=
  (shape.getD y []).getD x 0

/-- Cell of the board at row `y`, column `x` (0 outside). -/
def boardCell (board : List (List Int)) (y x : Nat) : Int :=
  (board.getD y []).getD x 0

/-- Write one board cell (no-op outside the list, as the theorems
only address in-range cells). -/
def setCell (board : List (List Int)) (y x : Nat) (v : Int) : List (List Int) :=
  board.set y ((board.getD y []).set x v)

-- ---------------------------------------------------------------------
-- check_collision (source lines 295-306)
-- ---------------------------------------------------------------------

/-- `check_collision(board, shape, offset_x, offset_y)`:
for every set cell, return true on a side/bottom bound violation, or on a
non-empty board cell at a non-negative absolute row. -/
def check_collision (board : List (List Int)) (shape : List (List Nat))
    (offset_x offset_y : Int) : Bool :=
  (List.range shape.length).any fun y =>
    (List.range (shape.getD y []).length).any fun x =>
      decide (shapeCell shape y x ≠ 0) &&
        (if offset_x + (x : Int) < 0 ∨ (COLS : Int) ≤ offset_x + (x : Int) ∨
            (ROWS : Int) ≤ offset_y + (y : Int) then true
         else if 0 ≤ offset_y + (y : Int) ∧
            boardCell board (offset_y + (y : Int)).toNat (offset_x + (x : Int)).toNat ≠ 0 then true
         else false)

theorem ite_ite_false_iff (A B : Prop) [Decidable A] [Decidable B] :
    ((if A then true else if B then true else false) = true) ↔ A ∨ B := by
  by_cases hA : A <;> by_cases hB : B <;> simp [hA, hB]

/-- C1: `check_collision` returns true iff some set cell of the shape maps
to a column outside `[0, COLS)`, or to a row `≥ ROWS`, or to a
non-negative row whose board cell is non-zero; rows `< 0` are only ever
tested against the side bounds, never against board contents. -/
theorem c1_check_collision_iff (board : List (List Int)) (shape : List (List Nat))
    (ox oy : Int) :
    check_collision board shape ox oy = true ↔
      ∃ y, y < shape.length ∧ ∃ x, x < (shape.getD y []).length ∧
        shapeCell shape y x ≠ 0 ∧
        (ox + (x : Int) < 0 ∨ (COLS : Int) ≤ ox + (x : Int) ∨
         (ROWS : Int) ≤ oy + (y : Int) ∨
         (0 ≤ oy + (y : Int) ∧ boardCell board (oy + (y : Int)).toNat (ox + (x : Int)).toNat ≠ 0)) := by
  unfold check_collision
  simp only [List.any_eq_true, List.mem_range, Bool.and_eq_true, decide_eq_true_eq,
    ite_ite_false_iff]
  constructor
  · rintro ⟨y, hy, x, hx, hcell, hcond⟩
    exact ⟨y, hy, x, hx, hcell, by tauto⟩
  · rintro ⟨y, hy, x, hx, hcell, hcond⟩
    exact ⟨y, hy, x, hx, hcell, by tauto⟩

-- ---------------------------------------------------------------------
-- merge_piece (source lines 308-316)
-- ---------------------------------------------------------------------

/-- The set cells of a shape bitmap, as `(x, y)` pairs in scan order. -/
def shapeCells (shape : List (List Nat)) : List (Nat × Nat) :=
  (List.range shape.length).flatMap fun y =>
    ((List.range (shape.getD y []).length).filter fun x => decide (shapeCell shape y x ≠ 0)).map
      fun x => (x, y)

theorem mem_shapeCells (shape : List (List Nat)) (x y : Nat) :
    (x, y) ∈ shapeCells shape ↔
      y < shape.length ∧ x < (shape.getD y []).length ∧ shapeCell shape y x ≠ 0 := by
  simp only [shapeCells, List.mem_flatMap, List.mem_map, List.mem_filter, List.mem_range]
  constructor
  · rintro ⟨y', hy', x', ⟨hx', hcell⟩, hpair⟩
    rw [Prod.mk.injEq] at hpair
    obtain ⟨h1, h2⟩ := hpair
    subst h1; subst h2
    exact ⟨hy', hx', by simpa using hcell⟩
  · rintro ⟨hy, hx, hcell⟩
    exact ⟨y, hy, x, ⟨hx, by simpa using hcell⟩, rfl⟩

/-- `merge_piece(board, piece)`: write `shape_id + 1` at every set cell with
non-negative absolute row. -/
def merge_piece (board : List (List Int)) (shape : List (List Nat)) (shape_id : Nat)
    (px py : Int) : List (List Int) :=
  (shapeCells shape).foldl
    (fun b c =>
      if 0 ≤ py + (c.2 : Int) then
        setCell b (py + (c.2 : Int)).toNat (px + (c.1 : Int)).toNat ((shape_id : Int) + 1)
      else b)
    board

theorem getD_mem_of_lt {α : Type} (l : List α) (d : α) {n : Nat} (h : n < l.length) :
    l.getD n d ∈ l := by
  rw [List.getD_eq_getElem l d h]; exact List.getElem_mem h

theorem boardCell_setCell (b : List (List Int)) (y x : Nat) (v : Int) (r c : Nat)
    (hy : y < b.length) (hx : x < (b.getD y []).length) :
    boardCell (setCell b y x v) r c = if y = r ∧ x = c then v else boardCell b r c := by
  unfold boardCell setCell
  have hby : b.getD y [] = b[y] := List.getD_eq_getElem b [] hy
  rw [hby] at hx
  by_cases hyr : y = r
  · subst hyr
    by_cases hxc : x = c
    · subst hxc
      simp [List.getD_eq_getElem?_getD, List.getElem?_set, hy, hx, hby]
    · simp [List.getD_eq_getElem?_getD, List.getElem?_set, hy, hxc, hby]
  · simp [List.getD_eq_getElem?_getD, List.getElem?_set, hyr]

theorem setCell_length (b : List (List Int)) (y x : Nat) (v : Int) :
    (setCell b y x v).length = b.length := by
  unfold setCell; exact b.length_set ..

theorem setCell_rows (b : List (List Int)) (y x : Nat) (v : Int)
    (hy : y < b.length) (hrows : ∀ row ∈ b, row.length = COLS) :
    ∀ row ∈ setCell b y x v, row.length = COLS := by
  intro row hrow
  rcases List.mem_or_eq_of_mem_set hrow with h | h
  · exact hrows row h
  · subst h
    rw [List.length_set]
    exact hrows _ (getD_mem_of_lt b [] hy)

theorem foldl_merge_cells (v : Int) (px py : Int) :
    ∀ (cs : List (Nat × Nat)) (b : List (List Int)),
    b.length = ROWS → (∀ row ∈ b, row.length = COLS) →
    (∀ c ∈ cs, 0 ≤ px + (c.1 : Int) ∧ px + (c.1 : Int) < (COLS : Int) ∧
       py + (c.2 : Int) < (ROWS : Int)) →
    ∀ r, r < ROWS → ∀ cc, cc < COLS →
    boardCell
      (cs.foldl
        (fun b c =>
          if 0 ≤ py + (c.2 : Int) then
            setCell b (py + (c.2 : Int)).toNat (px + (c.1 : Int)).toNat v
          else b)
        b) r cc
      = if ∃ c ∈ cs, py + (c.2 : Int) = (r : Int) ∧ px + (c.1 : Int) = (cc : Int) then v
        else boardCell b r cc := by
  intro cs
  induction cs with
  | nil => intro b _ _ _ r _ cc _; simp
  | cons c0 cs ih =>
    intro b hlen hrows hbounds r hr cc hcc
    obtain ⟨hx0, hx0', hy0'⟩ := hbounds c0 (List.mem_cons_self c0 cs)
    have hbounds' : ∀ c ∈ cs, 0 ≤ px + (c.1 : Int) ∧ px + (c.1 : Int) < (COLS : Int) ∧
        py + (c.2 : Int) < (ROWS : Int) := fun c hc => hbounds c (List.mem_cons_of_mem _ hc)
    have hR : ROWS = 20 := rfl
    have hC : COLS = 10 := rfl
    simp only [List.foldl_cons]
    set b1 := if 0 ≤ py + (c0.2 : Int) then
        setCell b (py + (c0.2 : Int)).toNat (px + (c0.1 : Int)).toNat v
      else b with hb1
    have hb1len : b1.length = ROWS := by
      rw [hb1]; split
      · rw [setCell_length]; exact hlen
      · exact hlen
    have hb1rows : ∀ row ∈ b1, row.length = COLS := by
      rw [hb1]; split
      · refine setCell_rows b _ _ _ ?_ hrows
        rw [hlen]
        omega
      · exact hrows
    rw [ih b1 hb1len hb1rows hbounds' r hr cc hcc]
    by_cases hhit : py + (c0.2 : Int) = (r : Int) ∧ px + (c0.1 : Int) = (cc : Int)
    · have hex : ∃ c ∈ c0 :: cs, py + (c.2 : Int) = (r : Int) ∧ px + (c.1 : Int) = (cc : Int) :=
        ⟨c0, List.mem_cons_self c0 cs, hhit⟩
      rw [if_pos hex]
      by_cases hex' : ∃ c ∈ cs, py + (c.2 : Int) = (r : Int) ∧ px + (c.1 : Int) = (cc : Int)
      · rw [if_pos hex']
      · rw [if_neg hex']
        have hpos : 0 ≤ py + (c0.2 : Int) := hhit.1 ▸ Int.natCast_nonneg r
        rw [hb1, if_pos hpos]
        have hyr : (py + (c0.2 : Int)).toNat = r := by
          rw [hhit.1]; exact Int.toNat_natCast r
        have hxc : (px + (c0.1 : Int)).toNat = cc := by
          rw [hhit.2]; exact Int.toNat_natCast cc
        have hylt : (py + (c0.2 : Int)).toNat < b.length := by rw [hlen]; omega
        have hxlt : (px + (c0.1 : Int)).toNat < (b.getD (py + (c0.2 : Int)).toNat []).length := by
          rw [hrows _ (getD_mem_of_lt b [] hylt)]
          omega
        rw [boardCell_setCell b _ _ v r cc hylt hxlt, if_pos ⟨hyr, hxc⟩]
    · have hiff : (∃ c ∈ c0 :: cs, py + (c.2 : Int) = (r : Int) ∧ px + (c.1 : Int) = (cc : Int))
          ↔ (∃ c ∈ cs, py + (c.2 : Int) = (r : Int) ∧ px + (c.1 : Int) = (cc : Int)) := by
        constructor
        · rintro ⟨c, hc, hcs⟩
          rcases List.mem_cons.mp hc with h | h
          · exact absurd (h ▸ hcs) hhit
          · exact ⟨c, h, hcs⟩
        · rintro ⟨c, hc, hcs⟩; exact ⟨c, List.mem_cons_of_mem _ hc, hcs⟩
      have hb1cell : boardCell b1 r cc = boardCell b r cc := by
        rw [hb1]; split
        · next hpos =>
          have hylt : (py + (c0.2 : Int)).toNat < b.length := by rw [hlen]; omega
          have hxlt : (px + (c0.1 : Int)).toNat < (b.getD (py + (c0.2 : Int)).toNat []).length := by
            rw [hrows _ (getD_mem_of_lt b [] hylt)]
            omega
          rw [boardCell_setCell b _ _ v r cc hylt hxlt]
          rw [if_neg]
          rintro ⟨hyr, hxc⟩
          exact hhit ⟨by rw [← hyr, Int.toNat_of_nonneg hpos],
                      by rw [← hxc, Int.toNat_of_nonneg hx0]⟩
        · rfl
      by_cases hex' : ∃ c ∈ cs, py + (c.2 : Int) = (r : Int) ∧ px + (c.1 : Int) = (cc : Int)
      · rw [if_pos hex', if_pos (hiff.mpr hex')]
      · rw [if_neg hex', if_neg (fun h => hex' (hiff.mp h)), hb1cell]

/-- C6: after `merge_piece`, every board cell covered by a set cell of the
shape (at non-negative absolute row, with the placement in bounds as the
driver guarantees via `check_collision`) holds `shape_id + 1`, and every
other board cell is unchanged. -/
theorem c6_merge_piece_spec (board : List (List Int)) (shape : List (List Nat))
    (shape_id : Nat) (px py : Int)
    (hlen : board.length = ROWS) (hrows : ∀ row ∈ board, row.length = COLS)
    (hbounds : ∀ c ∈ shapeCells shape,
      0 ≤ px + (c.1 : Int) ∧ px + (c.1 : Int) < (COLS : Int) ∧
      py + (c.2 : Int) < (ROWS : Int)) :
    ∀ r, r < ROWS → ∀ cc, cc < COLS →
      boardCell (merge_piece board shape shape_id px py) r cc =
        if ∃ c ∈ shapeCells shape, py + (c.2 : Int) = (r : Int) ∧ px + (c.1 : Int) = (cc : Int)
        then (shape_id : Int) + 1 else boardCell board r cc :=
  foldl_merge_cells _ px py (shapeCells shape) board hlen hrows hbounds

/-- Witness for C6: an O piece merged at the bottom of an empty board. -/
theorem c6_witness :
    boardCell (merge_piece (List.replicate 20 (List.replicate 10 (0 : Int)))
      [[1,1],[1,1]] 4 4 18) 18 4 = 5 := by
  have h := c6_merge_piece_spec (List.replicate 20 (List.replicate 10 (0 : Int)))
    [[1,1],[1,1]] 4 4 18 (by decide) (by decide) (by decide) 18 (by decide) 4 (by decide)
  rw [h]
  decide

-- ---------------------------------------------------------------------
-- clear_rows (source lines 318-337)
-- ---------------------------------------------------------------------

/-- A row is full when every cell is non-zero (`all(board[y])`). -/
def fullRow (row : List Int) : Bool := row.all fun c => decide (c ≠ 0)

def emptyRow : List Int := List.replicate COLS 0

def clearingRow : List Int := List.replicate COLS (-1)

/-- The inner marking loop `for x in range(COLS): board[row][x] = -1`. -/
def markRow (row : List Int) : List Int :=
  (List.range COLS).foldl (fun r x => r.set x (-1)) row

/-- `rows_to_clear`: indices of full rows, scanned top to bottom. -/
def rowsToClear (board : List (List Int)) : List Nat :=
  (List.range ROWS).filter fun y => fullRow (board.getD y [])

/-- The marking loop over `rows_to_clear`. -/
def markBoard (board : List (List Int)) (rs : List Nat) : List (List Int) :=
  rs.foldl (fun b r => b.set r (markRow (b.getD r []))) board

/-- `clear_rows(board)`: mark full rows, then for each recorded index
`del board[row]; board.insert(0, [0]*COLS)`; return the count. -/
def clear_rows (board : List (List Int)) : List (List Int) × Nat :=
  let rs := rowsToClear board
  let marked := markBoard board rs
  (rs.foldl (fun b r => emptyRow :: b.eraseIdx r) marked, rs.length)

theorem foldl_set_range (n : Nat) :
    ∀ row : List Int, n ≤ row.length →
    (List.range n).foldl (fun r x => r.set x (-1)) row
      = List.replicate n (-1) ++ row.drop n := by
  induction n with
  | zero => intro row _; simp
  | succ n ih =>
    intro row hn
    rw [List.range_succ, List.foldl_append, ih row (Nat.le_of_succ_le hn)]
    simp only [List.foldl_cons, List.foldl_nil]
    have hrep : (List.replicate n (-1 : Int)).length = n := List.length_replicate ..
    rw [List.set_append]
    rw [if_neg (by omega)]
    rw [hrep]
    have hlt : n < row.length := hn
    rw [List.drop_eq_getElem_cons hlt]
    simp only [Nat.sub_self, List.set_cons_zero]
    rw [List.replicate_succ']
    simp [List.append_assoc]

theorem markRow_eq (row : List Int) (h : row.length = COLS) : markRow row = clearingRow := by
  unfold markRow clearingRow
  rw [foldl_set_range COLS row (by omega)]
  rw [List.drop_eq_nil_of_le (by omega), List.append_nil]

theorem fullRow_clearingRow : fullRow clearingRow = true := by decide

theorem getD_set_lt {α : Type} (b : List α) (d : α) (r : Nat) (v : α) (i : Nat)
    (hr : r < b.length) :
    (b.set r v).getD i d = if i = r then v else b.getD i d := by
  by_cases hir : i = r
  · subst hir
    simp [List.getD_eq_getElem?_getD, List.getElem?_set, hr]
  · have hri : ¬ r = i := fun h => hir h.symm
    simp [List.getD_eq_getElem?_getD, List.getElem?_set, hri, hir]

theorem markBoard_length (rs : List Nat) :
    ∀ b : List (List Int), (markBoard b rs).length = b.length := by
  induction rs with
  | nil => intro b; rfl
  | cons r rs ih =>
    intro b
    unfold markBoard at *
    rw [List.foldl_cons, ih, List.length_set]

theorem markBoard_getD (rs : List Nat) :
    ∀ b : List (List Int), rs.Pairwise (· ≠ ·) → (∀ r ∈ rs, r < b.length) →
    ∀ i, (markBoard b rs).getD i []
      = if i ∈ rs then markRow (b.getD i []) else b.getD i [] := by
  induction rs with
  | nil => intro b _ _ i; simp [markBoard]
  | cons r0 rs ih =>
    intro b hpw hlt i
    obtain ⟨hne, hpw'⟩ := List.pairwise_cons.mp hpw
    have hr0 : r0 < b.length := hlt r0 (List.mem_cons_self r0 rs)
    have hstep : markBoard b (r0 :: rs)
        = markBoard (b.set r0 (markRow (b.getD r0 []))) rs := by
      unfold markBoard
      rw [List.foldl_cons]
    rw [hstep, ih _ hpw' (fun r hr => by rw [List.length_set]; exact hlt r (List.mem_cons_of_mem _ hr)) i]
    rw [getD_set_lt b [] r0 _ i hr0]
    by_cases hirs : i ∈ rs
    · have hir0 : i ≠ r0 := fun h => (hne i hirs) h.symm
      rw [if_pos hirs, if_neg hir0, if_pos (List.mem_cons_of_mem _ hirs)]
    · rw [if_neg hirs]
      by_cases hir0 : i = r0
      · subst hir0
        rw [if_pos rfl, if_pos (List.mem_cons_self i rs)]
      · rw [if_neg hir0, if_neg (by simp [hir0, hirs])]

theorem mem_rowsToClear (board : List (List Int)) (i : Nat) :
    i ∈ rowsToClear board ↔ i < ROWS ∧ fullRow (board.getD i []) = true := by
  simp [rowsToClear, List.mem_filter, List.mem_range]

theorem rowsToClear_pairwise (board : List (List Int)) :
    (rowsToClear board).Pairwise (· < ·) :=
  (List.pairwise_lt_range ROWS).filter _

theorem length_filter_add_length_filter_not {α : Type} (p : α → Bool) :
    ∀ l : List α, (l.filter p).length + (l.filter fun a => !p a).length = l.length := by
  intro l
  induction l with
  | nil => rfl
  | cons a l ih =>
    by_cases h : p a = true
    · simp [List.filter_cons, h, ih]
      omega
    · simp only [List.filter_cons, h, Bool.not_eq_true] at *
      simp [h, ih]
      omega

/-- Elements of `b` whose global index (the head has index `i`) is not in `rs`. -/
def dropIdxs {α : Type} : List α → List Nat → Nat → List α
  | [], _, _ => []
  | a :: t, rs, i => if i ∈ rs then dropIdxs t rs (i + 1) else a :: dropIdxs t rs (i + 1)

theorem dropIdxs_nil {α : Type} : ∀ (b : List α) (i : Nat), dropIdxs b [] i = b := by
  intro b
  induction b with
  | nil => intro i; rfl
  | cons a t ih => intro i; simp [dropIdxs, ih]

theorem dropIdxs_cons_of_lt {α : Type} :
    ∀ (t : List α) (i r : Nat) (rs : List Nat), r < i →
    dropIdxs t (r :: rs) i = dropIdxs t rs i := by
  intro t
  induction t with
  | nil => intro i r rs _; rfl
  | cons a t ih =>
    intro i r rs hri
    have hir : ¬ i = r := by omega
    unfold dropIdxs
    rw [ih (i + 1) r rs (by omega)]
    simp [List.mem_cons, hir]

theorem dropIdxs_cons {α : Type} (a : α) (t : List α) (rs : List Nat) (i : Nat) :
    dropIdxs (a :: t) rs i
      = if i ∈ rs then dropIdxs t rs (i + 1) else a :: dropIdxs t rs (i + 1) := rfl

theorem dropIdxs_eraseIdx {α : Type} :
    ∀ (b : List α) (j r : Nat) (rs : List Nat), j ≤ r → r < j + b.length →
    (∀ x ∈ rs, r < x) →
    dropIdxs (b.eraseIdx (r - j)) rs (j + 1) = dropIdxs b (r :: rs) j := by
  intro b
  induction b with
  | nil => intro j r rs h1 h2 _; simp at h2; omega
  | cons a t ih =>
    intro j r rs hjr hrb hrs
    by_cases hjr' : j = r
    · subst hjr'
      rw [Nat.sub_self]
      rw [List.eraseIdx_cons_zero]
      have h1 : dropIdxs (a :: t) (j :: rs) j = dropIdxs t (j :: rs) (j + 1) := by
        rw [dropIdxs_cons, if_pos (List.mem_cons_self j rs)]
      rw [h1, dropIdxs_cons_of_lt t (j + 1) j rs (by omega)]
    · have hjlt : j < r := by omega
      have hsub : r - j = (r - (j + 1)) + 1 := by omega
      rw [hsub, List.eraseIdx_cons_succ]
      have hnotmem : ¬ (j + 1) ∈ rs := fun h => by have := hrs _ h; omega
      have hjne : ¬ j ∈ r :: rs := by
        simp only [List.mem_cons]
        rintro (h | h)
        · omega
        · have := hrs _ h; omega
      rw [dropIdxs_cons, dropIdxs_cons, if_neg hnotmem, if_neg hjne]
      rw [ih (j + 1) r rs (by omega) (by simp at hrb; omega) hrs]

theorem foldl_erase_cons {α : Type} (e : α) :
    ∀ (rs : List Nat) (j : Nat) (b : List α),
    rs.Pairwise (· < ·) → (∀ r ∈ rs, j ≤ r ∧ r < j + b.length) →
    rs.foldl (fun c r => e :: c.eraseIdx r) (List.replicate j e ++ b)
      = List.replicate (j + rs.length) e ++ dropIdxs b rs j := by
  intro rs
  induction rs with
  | nil => intro j b _ _; simp [dropIdxs_nil]
  | cons r0 rs ih =>
    intro j b hpw hbd
    obtain ⟨hlt, hpw'⟩ := List.pairwise_cons.mp hpw
    obtain ⟨hjr0, hr0b⟩ := hbd r0 (List.mem_cons_self r0 rs)
    rw [List.foldl_cons]
    have herase : (List.replicate j e ++ b).eraseIdx r0
        = List.replicate j e ++ b.eraseIdx (r0 - j) := by
      rw [List.eraseIdx_append_of_length_le (by simp; omega)]
      simp
    rw [herase]
    have hcons : e :: (List.replicate j e ++ b.eraseIdx (r0 - j))
        = List.replicate (j + 1) e ++ b.eraseIdx (r0 - j) := by
      rw [List.replicate_succ]
      simp
    rw [hcons]
    have hblen : 0 < b.length := by omega
    have hlenerase : (b.eraseIdx (r0 - j)).length = b.length - 1 := by
      rw [List.length_eraseIdx]
      rw [if_pos (by omega)]
    rw [ih (j + 1) (b.eraseIdx (r0 - j)) hpw'
      (fun r hr => ⟨by have := hlt r hr; omega,
        by have := hlt r hr; have := (hbd r (List.mem_cons_of_mem _ hr)).2; omega⟩)]
    rw [dropIdxs_eraseIdx b j r0 rs hjr0 (by omega) hlt]
    have : j + 1 + rs.length = j + (r0 :: rs).length := by simp; omega
    rw [this]

theorem dropIdxs_filter {α : Type} (P : α → Bool) (d : α) :
    ∀ (b : List α) (i : Nat) (rs : List Nat),
    (∀ k, k < b.length → ((i + k) ∈ rs ↔ P (b.getD k d) = true)) →
    dropIdxs b rs i = b.filter fun a => !P a := by
  intro b
  induction b with
  | nil => intro i rs _; rfl
  | cons a t ih =>
    intro i rs hchar
    have hhead : i ∈ rs ↔ P a = true := by
      have := hchar 0 (by simp)
      simpa using this
    have htail : ∀ k, k < t.length → ((i + 1 + k) ∈ rs ↔ P (t.getD k d) = true) := by
      intro k hk
      have := hchar (k + 1) (by simp; omega)
      rw [show i + (k + 1) = i + 1 + k by omega] at this
      simpa using this
    unfold dropIdxs
    by_cases hP : P a = true
    · rw [if_pos (hhead.mpr hP), ih (i + 1) rs htail]
      simp [List.filter_cons, hP]
    · rw [if_neg (fun h => hP (hhead.mp h)), ih (i + 1) rs htail]
      have hPa : (!P a) = true := by simp [hP]
      simp [List.filter_cons, hPa]

theorem foldl_erase_length {α : Type} (e : α) :
    ∀ (rs : List Nat) (b : List α), (∀ r ∈ rs, r < b.length) →
    (rs.foldl (fun c r => e :: c.eraseIdx r) b).length = b.length := by
  intro rs
  induction rs with
  | nil => intro b _; rfl
  | cons r0 rs ih =>
    intro b hbd
    have hr0 : r0 < b.length := hbd r0 (List.mem_cons_self r0 rs)
    rw [List.foldl_cons]
    have hlen : (e :: b.eraseIdx r0).length = b.length := by
      simp [List.length_eraseIdx, hr0]
      omega
    rw [ih (e :: b.eraseIdx r0) (fun r hr => by rw [hlen]; exact hbd r (List.mem_cons_of_mem _ hr))]
    exact hlen

theorem filter_congr_pointwise {α : Type} (P : α → Bool) (d : α) :
    ∀ (b b' : List α), b.length = b'.length →
    (∀ k, k < b.length → P (b.getD k d) = P (b'.getD k d) ∧
      (P (b.getD k d) = false → b.getD k d = b'.getD k d)) →
    b.filter (fun a => !P a) = b'.filter fun a => !P a := by
  intro b
  induction b with
  | nil =>
    intro b' hlen _
    cases b' with
    | nil => rfl
    | cons a t => simp at hlen
  | cons a t ih =>
    intro b' hlen hpt
    cases b' with
    | nil => simp at hlen
    | cons a' t' =>
      have hhead := hpt 0 (by simp)
      simp only [List.getD_cons_zero] at hhead
      have htail : ∀ k, k < t.length → P (t.getD k d) = P (t'.getD k d) ∧
          (P (t.getD k d) = false → t.getD k d = t'.getD k d) := by
        intro k hk
        have := hpt (k + 1) (by simp; omega)
        simpa using this
      have hlen' : t.length = t'.length := by simpa using hlen
      simp only [List.filter_cons]
      rw [ih t' hlen' htail]
      by_cases hP : P a = true
      · have hPa' : P a' = true := by rw [← hhead.1]; exact hP
        simp [hP, hPa']
      · have hPa : P a = false := by simpa using hP
        have heq : a = a' := hhead.2 hPa
        subst heq
        rfl

theorem clear_rows_characterization (board : List (List Int))
    (hlen : board.length = ROWS) (hrows : ∀ row ∈ board, row.length = COLS) :
    clear_rows board
      = (List.replicate (board.filter fullRow).length emptyRow
          ++ board.filter (fun r => !fullRow r),
         (board.filter fullRow).length) := by
  have hpw := rowsToClear_pairwise board
  have hbd : ∀ r ∈ rowsToClear board, r < board.length := by
    intro r hr
    rw [hlen]
    exact ((mem_rowsToClear board r).mp hr).1
  have hmlen : (markBoard board (rowsToClear board)).length = board.length :=
    markBoard_length _ board
  have hpwne : (rowsToClear board).Pairwise (· ≠ ·) :=
    hpw.imp (fun h => Nat.ne_of_lt h)
  have hgetD := markBoard_getD (rowsToClear board) board hpwne hbd
  have hfull : ∀ i, fullRow ((markBoard board (rowsToClear board)).getD i [])
      = fullRow (board.getD i []) := by
    intro i
    rw [hgetD i]
    by_cases hi : i ∈ rowsToClear board
    · rw [if_pos hi]
      have hilt : i < board.length := hbd i hi
      have hcols : (board.getD i []).length = COLS := hrows _ (getD_mem_of_lt board [] hilt)
      rw [markRow_eq _ hcols, fullRow_clearingRow]
      exact (((mem_rowsToClear board i).mp hi).2).symm
    · rw [if_neg hi]
  have hchar : ∀ k, k < (markBoard board (rowsToClear board)).length →
      ((0 + k) ∈ rowsToClear board ↔
        fullRow ((markBoard board (rowsToClear board)).getD k []) = true) := by
    intro k hk
    rw [Nat.zero_add, hfull k, mem_rowsToClear]
    constructor
    · rintro ⟨_, h⟩; exact h
    · intro h
      refine ⟨?_, h⟩
      rw [hmlen, hlen] at hk
      exact hk
  have hdrop := dropIdxs_filter fullRow [] (markBoard board (rowsToClear board)) 0
    (rowsToClear board) hchar
  have hfiltereq := filter_congr_pointwise fullRow []
    (markBoard board (rowsToClear board)) board hmlen
    (by
      intro k hk
      constructor
      · exact hfull k
      · intro hP
        have hbP : fullRow (board.getD k []) = false := by rw [← hfull k]; exact hP
        have hnotmem : ¬ k ∈ rowsToClear board := fun hmem => by
          have ht := ((mem_rowsToClear board k).mp hmem).2
          rw [ht] at hbP
          exact absurd hbP (by decide)
        rw [hgetD k, if_neg hnotmem])
  have hfold := foldl_erase_cons emptyRow (rowsToClear board) 0
    (markBoard board (rowsToClear board)) hpw
    (fun r hr => ⟨Nat.zero_le r,
      by simp only [Nat.zero_add, hmlen]; exact hbd r hr⟩)
  simp only [List.replicate_zero, List.nil_append, Nat.zero_add] at hfold
  rw [hdrop, hfiltereq] at hfold
  have hbounds : ∀ r ∈ rowsToClear board, r < (markBoard board (rowsToClear board)).length :=
    fun r hr => by rw [hmlen]; exact hbd r hr
  have hlenfold := foldl_erase_length emptyRow (rowsToClear board)
    (markBoard board (rowsToClear board)) hbounds
  rw [hfold] at hlenfold
  simp only [List.length_append, List.length_replicate, hmlen] at hlenfold
  have hsum := length_filter_add_length_filter_not fullRow board
  have hk : (rowsToClear board).length = (board.filter fullRow).length := by omega
  have hdef : clear_rows board
      = ((rowsToClear board).foldl (fun b r => emptyRow :: b.eraseIdx r)
          (markBoard board (rowsToClear board)),
         (rowsToClear board).length) := rfl
  rw [hdef, hfold, hk]

/-- C2: for a board with exactly `k` full rows (`k ≤ 4`, a row being full
iff every cell is non-zero), `clear_rows` returns `k`, removes exactly the
full rows — inserting `k` empty rows at the top and preserving the
relative order of the remaining rows — and the row count stays `ROWS`. -/
theorem c2_clear_rows_spec (board : List (List Int))
    (hlen : board.length = ROWS) (hrows : ∀ row ∈ board, row.length = COLS)
    (_hk4 : (board.filter fullRow).length ≤ 4) :
    clear_rows board
      = (List.replicate (board.filter fullRow).length emptyRow
          ++ board.filter (fun r => !fullRow r),
         (board.filter fullRow).length)
    ∧ (clear_rows board).1.length = ROWS := by
  have h := clear_rows_characterization board hlen hrows
  refine ⟨h, ?_⟩
  rw [h]
  simp only [List.length_append, List.length_replicate]
  have hsum := length_filter_add_length_filter_not fullRow board
  omega

def c2Board : List (List Int) :=
  List.replicate 19 emptyRow ++ [List.replicate 10 1]

/-- Witness for C2: a board whose bottom row is full clears exactly one row. -/
theorem c2_witness : clear_rows c2Board = (List.replicate 20 emptyRow, 1) := by
  have h := (c2_clear_rows_spec c2Board (by decide) (by decide) (by decide)).1
  rw [h]
  decide

-- ---------------------------------------------------------------------
-- Deferred removal branch of the main loop (source lines 691-704)
-- ---------------------------------------------------------------------

/-- When the line-clear animation timer hits zero the main loop zeroes the
CLEARING cells, drops rows consisting entirely of `-1`, and pads with
empty rows at the top. -/
def deferred_remove (board : List (List Int)) : List (List Int) :=
  let b1 := board.map fun row => row.map fun c => if c = -1 then 0 else c
  let b2 := b1.filter fun row => row.any fun c => decide (c ≠ -1)
  List.replicate (ROWS - b2.length) emptyRow ++ b2

theorem deferred_remove_id (b : List (List Int))
    (hlen : b.length = ROWS) (hno : ∀ row ∈ b, ∀ c ∈ row, c ≠ -1)
    (hne : ∀ row ∈ b, row ≠ []) :
    deferred_remove b = b := by
  unfold deferred_remove
  have hrowmap : ∀ row ∈ b, (row.map fun c => if c = -1 then 0 else c) = row := by
    intro row hrow
    have hc : ∀ c ∈ row, (fun c => if c = -1 then 0 else c) c = id c := by
      intro c hc
      simp only [id]
      exact if_neg (hno row hrow c hc)
    rw [List.map_congr_left hc, List.map_id]
  have hmap : (b.map fun row => row.map fun c => if c = -1 then 0 else c) = b := by
    have h : ∀ row ∈ b, (fun row => row.map fun c => if c = -1 then 0 else c) row = id row := by
      intro row hrow
      simp only [id]
      exact hrowmap row hrow
    rw [List.map_congr_left h, List.map_id]
  rw [hmap]
  show List.replicate
      (ROWS - ((b.filter fun row => row.any fun c => decide (c ≠ -1))).length) emptyRow
    ++ (b.filter fun row => row.any fun c => decide (c ≠ -1)) = b
  have hfilter : (b.filter fun row => row.any fun c => decide (c ≠ -1)) = b := by
    rw [List.filter_eq_self]
    intro row hrow
    obtain ⟨c, hc⟩ := List.exists_mem_of_ne_nil row (hne row hrow)
    rw [List.any_eq_true]
    exact ⟨c, hc, by simpa using hno row hrow c hc⟩
  rw [hfilter, hlen, Nat.sub_self]
  simp

def c10Board : List (List Int) :=
  ((-1) :: List.replicate 9 0) :: List.replicate 19 emptyRow

/-- C10 counterexample: on a board whose first row is only partially
marked with `-1`, `clear_rows` leaves that `-1` cell in place (the row is
not full, so it is neither re-marked nor deleted). -/
theorem c10_counterexample :
    boardCell (clear_rows c10Board).1 0 0 = -1 ∧ (clear_rows c10Board).2 = 0 := by
  constructor <;> decide

/-- C10 (amended): for every board satisfying the documented row
invariant — each row either entirely `-1` or containing no `-1` — no cell
of the board returned by `clear_rows` holds the CLEARING sentinel `-1`
(every row the call marks with `-1` is full and is deleted in the same
call); consequently the deferred-removal branch that runs when the
line-clear animation timer reaches zero leaves that board unchanged. -/
theorem c10_clear_rows_no_sentinel (board : List (List Int))
    (hlen : board.length = ROWS) (hrows : ∀ row ∈ board, row.length = COLS)
    (hinv : ∀ row ∈ board, (∀ c ∈ row, c = -1) ∨ (∀ c ∈ row, c ≠ -1)) :
    (∀ row ∈ (clear_rows board).1, ∀ c ∈ row, c ≠ -1)
    ∧ deferred_remove (clear_rows board).1 = (clear_rows board).1 := by
  have hchar := clear_rows_characterization board hlen hrows
  have hfst : (clear_rows board).1
      = List.replicate (board.filter fullRow).length emptyRow
          ++ board.filter (fun r => !fullRow r) := by rw [hchar]
  have hno : ∀ row ∈ (clear_rows board).1, ∀ c ∈ row, c ≠ -1 := by
    rw [hfst]
    intro row hrow c hc
    rcases List.mem_append.mp hrow with h | h
    · have : row = emptyRow := List.eq_of_mem_replicate h
      subst this
      have : c = 0 := List.eq_of_mem_replicate hc
      subst this
      decide
    · obtain ⟨hmem, hnf⟩ := List.mem_filter.mp h
      rcases hinv row hmem with hall | hnone
      · exfalso
        have hfull : fullRow row = true := by
          rw [fullRow, List.all_eq_true]
          intro x hx
          rw [hall x hx]
          decide
        rw [hfull] at hnf
        exact absurd hnf (by decide)
      · exact hnone c hc
  refine ⟨hno, ?_⟩
  apply deferred_remove_id
  · rw [hfst]
    simp only [List.length_append, List.length_replicate]
    have hsum := length_filter_add_length_filter_not fullRow board
    omega
  · exact hno
  · rw [hfst]
    intro row hrow
    rcases List.mem_append.mp hrow with h | h
    · have : row = emptyRow := List.eq_of_mem_replicate h
      subst this
      decide
    · obtain ⟨hmem, _⟩ := List.mem_filter.mp h
      have : row.length = COLS := hrows row hmem
      intro hnil
      rw [hnil] at this
      exact absurd this (by decide)

/-- Witness for C10: an empty board is unchanged by `clear_rows` followed
by the deferred-removal branch. -/
theorem c10_witness :
    deferred_remove (clear_rows (List.replicate 20 emptyRow)).1
      = (clear_rows (List.replicate 20 emptyRow)).1 :=
  (c10_clear_rows_no_sentinel (List.replicate 20 emptyRow)
    (by decide) (by decide) (by decide)).2

-- ---------------------------------------------------------------------
-- Speed table, scoring, level update (source lines 31-35, 339-348, 770)
-- ---------------------------------------------------------------------

/-- The NES/GB gravity table (`SPEED_TABLE`), frames between drops. -/
def SPEED_TABLE : List (Int × Nat) :=
  [(0,48),(1,43),(2,38),(3,33),(4,28),(5,23),(6,18),(7,13),(8,8),(9,6),
   (10,5),(11,5),(12,5),(13,4),(14,4),(15,4),(16,3),(17,3),(18,3),(19,2),
   (20,2),(21,2),(22,2),(23,2),(24,2),(25,2),(26,2),(27,2),(28,2),(29,1)]

/-- `get_level_speed(level)`: 1 beyond level 29 (kill screen), else a
table lookup with default 48. -/
def get_level_speed (level : Int) : Nat :=
  if 29 < level then 1
  else (SPEED_TABLE.lookup level).getD 48

/-- The `base_points` dict of `calculate_score` (`.get(lines, 0)`). -/
def base_points (lines : Nat) : Int :=
  if lines = 0 then 0 else if lines = 1 then 40 else if lines = 2 then 100
  else if lines = 3 then 300 else if lines = 4 then 1200 else 0

/-- `calculate_score(lines, level)`: Nintendo scoring. -/
def calculate_score (lines : Nat) (level : Int) : Int :=
  base_points lines * (level + 1)

/-- The level update performed on a line clear (line 770):
`level = min(29, lines // 10 + starting_level)`. -/
def level_update (lines : Nat) (starting_level : Int) : Int :=
  min 29 (((lines / 10 : Nat) : Int) + starting_level)

/-- C8 counterexample: with starting level `-1` and no cleared lines the
level actually used is `-1`, outside `[0, 29]` — the code clamps only
from above; the speed lookup then falls back to the dict default 48. -/
theorem c8_counterexample :
    level_update 0 (-1) = -1 ∧ level_update 0 (-1) < 0 ∧ get_level_speed (-1) = 48 :=
  ⟨by decide, by decide, by decide⟩

/-- C8 (amended): the updated level is clamped from above at 29, and it
lies in `[0, 29]` for every total of cleared lines whenever the starting
level itself lies in `[0, 29]` (as the menu, which hardcodes 0, supplies). -/
theorem c8_level_range (lines : Nat) (starting_level : Int)
    (h0 : 0 ≤ starting_level) (h29 : starting_level ≤ 29) :
    (0 ≤ level_update lines starting_level ∧ level_update lines starting_level ≤ 29)
    ∧ 0 ≤ starting_level ∧ starting_level ≤ 29 := by
  refine ⟨⟨?_, ?_⟩, h0, h29⟩
  · refine le_min (by norm_num) ?_
    have h := Int.natCast_nonneg (lines / 10)
    omega
  · exact min_le_left ..

/-- Witness for C8: 1000 lines at starting level 0 give a level in range. -/
theorem c8_witness :
    (0 ≤ level_update 1000 0 ∧ level_update 1000 0 ≤ 29)
    ∧ (0 : Int) ≤ 0 ∧ (0 : Int) ≤ 29 :=
  c8_level_range 1000 0 (by decide) (by decide)

-- ---------------------------------------------------------------------
-- Rotation (source lines 286-290)
-- ---------------------------------------------------------------------

/-- Clockwise bitmap rotation, `np.rot90(shape, -1)`. -/
def rot_cw (m : List (List Nat)) : List (List Nat) := m.reverse.transpose

/-- `Piece.get_rotated`: the O piece (`shape_id = 4`) returns its shape
unchanged; every other piece rotates 90° clockwise. -/
def get_rotated (shape_id : Nat) (shape : List (List Nat)) : List (List Nat) :=
  if shape_id = 4 then shape else rot_cw shape

/-- C7: four applications of `get_rotated` restore every reachable
bitmap of a non-O piece (the base shape and each of its rotations), and
`get_rotated` on the O piece is the identity. -/
theorem c7_rotation_cycle :
    (∀ i k, i < 7 → i ≠ 4 →
      get_rotated i (get_rotated i (get_rotated i (get_rotated i
        (rot_cw^[k] (SHAPES.getD i []))))) = rot_cw^[k] (SHAPES.getD i []))
    ∧ ∀ s, get_rotated 4 s = s := by
  constructor
  · intro i k hi hne
    have hgr : ∀ s, get_rotated i s = rot_cw s := fun s => if_neg hne
    rw [hgr, hgr, hgr, hgr]
    have hbase : rot_cw^[4] (SHAPES.getD i []) = SHAPES.getD i [] := by
      interval_cases i
      · decide
      · decide
      · decide
      · decide
      · exact absurd rfl hne
      · decide
      · decide
    have h4 : ∀ y, rot_cw (rot_cw (rot_cw (rot_cw y))) = rot_cw^[4] y := fun y => rfl
    rw [h4, ← Function.iterate_add_apply, Nat.add_comm, Function.iterate_add_apply, hbase]
  · intro s
    exact if_pos rfl

/-- Witness for C7: the once-rotated I piece returns to itself after four
more rotations. -/
theorem c7_witness :
    get_rotated 0 (get_rotated 0 (get_rotated 0 (get_rotated 0
      (rot_cw^[1] (SHAPES.getD 0 []))))) = rot_cw^[1] (SHAPES.getD 0 []) :=
  c7_rotation_cycle.1 0 1 (by decide) (by decide)

-- ---------------------------------------------------------------------
-- GameState.add_score (source lines 266-272)
-- ---------------------------------------------------------------------

/-- `add_score(score, mode)` on one mode's stored list: append the new
score, sort descending (`sort(reverse=True)`), keep the first ten. -/
def add_score (scores : List Int) (score : Int) : List Int :=
  (List.insertionSort (· ≥ ·) (scores ++ [score])).take 10

/-- C9: the stored list after `add_score` is the (at most) ten largest of
the prior scores plus the submitted one, sorted descending: it is sorted,
has length `min 10 (n+1)`, and the input multiset splits into the kept
scores plus dropped scores, every dropped score at most every kept one. -/
theorem c9_add_score_spec (prior : List Int) (score : Int) :
    (add_score prior score).Sorted (· ≥ ·)
    ∧ (add_score prior score).length = min 10 (prior.length + 1)
    ∧ ∃ dropped : List Int,
        (↑(prior ++ [score]) : Multiset Int) = ↑(add_score prior score) + ↑dropped
        ∧ ∀ a ∈ add_score prior score, ∀ b ∈ dropped, b ≤ a := by
  have hsorted := List.sorted_insertionSort (· ≥ ·) (prior ++ [score])
  refine ⟨?_, ?_, ?_⟩
  · exact List.Pairwise.sublist (List.take_sublist 10 _) hsorted
  · unfold add_score
    rw [List.length_take, List.length_insertionSort]
    simp
  · set L := List.insertionSort (· ≥ ·) (prior ++ [score]) with hL
    have hadd : add_score prior score = L.take 10 := rfl
    refine ⟨L.drop 10, ?_, ?_⟩
    · have hperm : List.Perm L (prior ++ [score]) := List.perm_insertionSort _ _
      have hsplit : L.take 10 ++ L.drop 10 = L := List.take_append_drop 10 L
      rw [hadd]
      calc (↑(prior ++ [score]) : Multiset Int)
          = (L : Multiset Int) := (Multiset.coe_eq_coe.mpr hperm).symm
        _ = ((L.take 10 ++ L.drop 10 : List Int) : Multiset Int) := by rw [hsplit]
        _ = ((L.take 10 : List Int) : Multiset Int) + ((L.drop 10 : List Int) : Multiset Int) :=
            (Multiset.coe_add _ _).symm
    · intro a ha b hb
      rw [hadd] at ha
      have hsplit : L.take 10 ++ L.drop 10 = L := List.take_append_drop 10 L
      have hsorted2 : (L.take 10 ++ L.drop 10).Pairwise (· ≥ ·) := by
        rw [hsplit]; exact hsorted
      exact (List.pairwise_append.mp hsorted2).2.2 a ha b hb

-- ---------------------------------------------------------------------
-- The per-frame state machine of run_game (source lines 589-796)
-- ---------------------------------------------------------------------

/-- Key-down events consumed by the event loop each frame (`K_UP`,
`K_SPACE`, `K_p`); the quit/restart/menu keys end the game loop and are
outside the per-frame claims. -/
inductive Event
  | up
  | space
  | p
deriving DecidableEq

/-- The mutable state of one game inside `run_game`: the board, the
active piece (bitmap, id, position, entry timer), the id of the
pre-generated next piece, the ledger, and the frame timers. -/
structure GState where
  board : List (List Int)
  shape : List (List Nat)
  shape_id : Nat
  px : Int
  py : Int
  entry_timer : Nat
  nshape_id : Nat
  score : Int
  lines : Nat
  level : Int
  starting_level : Int
  statistics : List Nat
  drop_timer : Nat
  lock_delay : Nat
  das_left : Nat
  das_right : Nat
  game_over : Bool
  paused : Bool
  line_clear_timer : Nat
deriving DecidableEq

/-- Per-frame input: the frame's key-down events in order, the held-key
snapshot taken before the event loop, and the oracle value for
`random.randint(0, 6)` at the next spawn. -/
structure Input where
  events : List Event
  left : Bool
  right : Bool
  down : Bool
  rand : Nat
deriving DecidableEq

/-- Spawn abscissa of `Piece(shape_id)`:
`COLS // 2 - shape_width // 2`. -/
def spawn_x (shape_id : Nat) : Int :=
  ((COLS / 2 : Nat) : Int) - ((((SHAPES.getD shape_id []).getD 0 []).length / 2 : Nat) : Int)

/-- The `K_UP` branch of the event loop (lines 652-671): try the rotated
bitmap in place, then kicked one cell left, then one cell right; an
accepted rotation resets the lock delay; otherwise the rotation is
rejected. -/
def tryRotate (s : GState) : GState :=
  let rotated := get_rotated s.shape_id s.shape
  if check_collision s.board rotated s.px s.py = false then
    { s with shape := rotated, lock_delay := 0 }
  else if check_collision s.board rotated (s.px - 1) s.py = false then
    { s with shape := rotated, px := s.px - 1, lock_delay := 0 }
  else if check_collision s.board rotated (s.px + 1) s.py = false then
    { s with shape := rotated, px := s.px + 1, lock_delay := 0 }
  else s

/-- Fuel-bounded descent count of the hard-drop `while` loop; the fuel
passed by `hardDrop` exceeds any possible descent of a piece with a set
cell, so the count agrees with the source wherever its loop terminates. -/
def dropDistance (board : List (List Int)) (shape : List (List Nat)) (px : Int) :
    Int → Nat → Nat
  | _, 0 => 0
  | py, fuel + 1 =>
    if check_collision board shape px (py + 1) = false then
      dropDistance board shape px (py + 1) fuel + 1
    else 0

/-- The `K_SPACE` branch (lines 674-682): descend to the floor, award two
points per cell, force the lock delay to its threshold. -/
def hardDrop (s : GState) : GState :=
  let d := dropDistance s.board s.shape s.px s.py (ROWS + s.py.natAbs + s.shape.length + 1)
  { s with py := s.py + (d : Int), score := s.score + (d : Int) * 2,
           lock_delay := max_lock_delay }

/-- One `KEYDOWN` of the event loop (lines 636-682): `P` toggles pause
unless the game is over; `UP` and `SPACE` act when neither paused nor
game over (they are not gated on the entry timer). -/
def handleEvent (s : GState) (e : Event) : GState :=
  match e with
  | .p => if s.game_over = false then { s with paused := !s.paused } else s
  | .up => if s.game_over = false ∧ s.paused = false then tryRotate s else s
  | .space => if s.game_over = false ∧ s.paused = false then hardDrop s else s

/-- The left-DAS block for a held key (lines 707-718), also reporting the
number of collision-tested single-cell move attempts of the frame. -/
def dasLeftHeld (s : GState) : GState × Nat :=
  let sa := if s.das_left = 0 then
      (if check_collision s.board s.shape (s.px - 1) s.py = false then
        { s with px := s.px - 1, lock_delay := 0 } else s, 1)
    else (s, 0)
  let s1 := { sa.1 with das_left := sa.1.das_left + 1 }
  if DAS_DELAY ≤ s1.das_left ∧ (s1.das_left - DAS_DELAY) % DAS_RATE = 0 then
    (if check_collision s1.board s1.shape (s1.px - 1) s1.py = false then
      { s1 with px := s1.px - 1, lock_delay := 0 } else s1, sa.2 + 1)
  else (s1, sa.2)

/-- The right-DAS block for a held key (lines 722-733). -/
def dasRightHeld (s : GState) : GState :=
  let sa := if s.das_right = 0 then
      (if check_collision s.board s.shape (s.px + 1) s.py = false then
        { s with px := s.px + 1, lock_delay := 0 } else s)
    else s
  let s1 := { sa with das_right := sa.das_right + 1 }
  if DAS_DELAY ≤ s1.das_right ∧ (s1.das_right - DAS_DELAY) % DAS_RATE = 0 then
    (if check_collision s1.board s1.shape (s1.px + 1) s1.py = false then
      { s1 with px := s1.px + 1, lock_delay := 0 } else s1)
  else s1

/-- DAS processing of one frame: held keys run their block, released
keys reset their accumulator to zero. -/
def dasPhase (s : GState) (inp : Input) : GState :=
  let s1 := if inp.left = true then (dasLeftHeld s).1 else { s with das_left := 0 }
  if inp.right = true then dasRightHeld s1 else { s1 with das_right := 0 }

/-- Effective drop speed (lines 741-743): the level's table speed, halved
(at least 1) while soft-dropping. -/
def effDropSpeed (level : Int) (soft : Bool) : Nat :=
  if soft then max 1 (get_level_speed level / 2) else get_level_speed level

/-- Gravity (lines 745-755): advance the drop timer; on reaching the
threshold reset it and either descend (scoring a soft-drop point,
resetting lock delay) or, when blocked, increment the lock delay. -/
def gravityStep (s : GState) (soft : Bool) : GState :=
  let s1 := { s with drop_timer := s.drop_timer + 1 }
  if effDropSpeed s1.level soft ≤ s1.drop_timer then
    let s2 := { s1 with drop_timer := 0 }
    if check_collision s2.board s2.shape s2.px (s2.py + 1) = false then
      { s2 with py := s2.py + 1,
                score := if soft then s2.score + 1 else s2.score,
                lock_delay := 0 }
    else { s2 with lock_delay := s2.lock_delay + 1 }
  else s1

/-- The lock sequence (lines 760-796): merge the piece, bump its
statistic, clear rows, apply scoring/lines/level and start the animation
timer on a clear, promote the next piece (spawn position, entry delay,
timers reset, fresh next id from the oracle), and set `game_over` when
the spawned piece collides. -/
def lockPiece (s : GState) (inp : Input) : GState :=
  let board1 := merge_piece s.board s.shape s.shape_id s.px s.py
  let stats := s.statistics.set s.shape_id (s.statistics.getD s.shape_id 0 + 1)
  let cr := clear_rows board1
  let cleared := cr.2
  let lines2 := if 0 < cleared then s.lines + cleared else s.lines
  let score2 := if 0 < cleared then s.score + calculate_score cleared s.level else s.score
  let level2 := if 0 < cleared then level_update lines2 s.starting_level else s.level
  let lct2 := if 0 < cleared then line_clear_delay else s.line_clear_timer
  let spawned : GState :=
    { s with board := cr.1, statistics := stats, lines := lines2, score := score2,
             level := level2, line_clear_timer := lct2,
             shape_id := s.nshape_id, shape := SHAPES.getD s.nshape_id [],
             px := spawn_x s.nshape_id, py := 0, entry_timer := ENTRY_DELAY,
             nshape_id := inp.rand,
             drop_timer := 0, lock_delay := 0, das_left := 0, das_right := 0 }
  if check_collision spawned.board spawned.shape spawned.px spawned.py = true then
    { spawned with game_over := true }
  else spawned

/-- The lock re-check (lines 757-760): every frame in which the piece
cannot fall advances the lock delay once more and locks at the
threshold. -/
def lockCheck (s : GState) (inp : Input) : GState :=
  if check_collision s.board s.shape s.px (s.py + 1) = true then
    let s1 := { s with lock_delay := s.lock_delay + 1 }
    if max_lock_delay ≤ s1.lock_delay then lockPiece s1 inp else s1
  else s

/-- The line-clear animation tick (lines 691-704): decrement; on zero run
the deferred removal. -/
def lineClearTick (s : GState) : GState :=
  let t := s.line_clear_timer - 1
  if t = 0 then { s with line_clear_timer := t, board := deferred_remove s.board }
  else { s with line_clear_timer := t }

/-- The simulation block of one frame (lines 684-796), reached when
neither paused nor game over: entry delay, else line-clear animation,
else DAS, gravity and the lock check. -/
def simStep (s : GState) (inp : Input) : GState :=
  if 0 < s.entry_timer then { s with entry_timer := s.entry_timer - 1 }
  else if 0 < s.line_clear_timer then lineClearTick s
  else lockCheck (gravityStep (dasPhase s inp) inp.down) inp

/-- One full frame of `run_game`: the event loop folds over the frame's
key-down events, then the simulation block runs unless paused or over. -/
def frame (s : GState) (inp : Input) : GState :=
  let s1 := inp.events.foldl handleEvent s
  if s1.game_over = false ∧ s1.paused = false then simStep s1 inp else s1

theorem gravity_blocked_fired (s : GState) (soft : Bool)
    (hf : effDropSpeed s.level soft ≤ s.drop_timer + 1)
    (hb : check_collision s.board s.shape s.px (s.py + 1) = true) :
    gravityStep s soft = { s with drop_timer := 0, lock_delay := s.lock_delay + 1 } := by
  simp [gravityStep, hf, hb]

theorem gravity_blocked_notfired (s : GState) (soft : Bool)
    (hnf : ¬ effDropSpeed s.level soft ≤ s.drop_timer + 1) :
    gravityStep s soft = { s with drop_timer := s.drop_timer + 1 } := by
  simp [gravityStep, hnf]

theorem gravity_unblocked_fired (s : GState) (soft : Bool)
    (hf : effDropSpeed s.level soft ≤ s.drop_timer + 1)
    (hnb : check_collision s.board s.shape s.px (s.py + 1) = false) :
    gravityStep s soft
      = { s with drop_timer := 0, py := s.py + 1,
                 score := if soft then s.score + 1 else s.score, lock_delay := 0 } := by
  simp [gravityStep, hf, hnb]

theorem lockCheck_not_locking (s : GState) (inp : Input)
    (hb : check_collision s.board s.shape s.px (s.py + 1) = true)
    (hsmall : s.lock_delay + 1 < max_lock_delay) :
    lockCheck s inp = { s with lock_delay := s.lock_delay + 1 } := by
  have h : ¬ max_lock_delay ≤ s.lock_delay + 1 := by omega
  simp [lockCheck, hb, h]

theorem lockCheck_locking (s : GState) (inp : Input)
    (hb : check_collision s.board s.shape s.px (s.py + 1) = true)
    (hge : max_lock_delay ≤ s.lock_delay + 1) :
    lockCheck s inp = lockPiece { s with lock_delay := s.lock_delay + 1 } inp := by
  simp [lockCheck, hb, hge]

theorem lockCheck_free (s : GState) (inp : Input)
    (hnb : check_collision s.board s.shape s.px (s.py + 1) = false) :
    lockCheck s inp = s := by
  simp [lockCheck, hnb]

theorem lockPiece_fields (s : GState) (inp : Input) :
    (lockPiece s inp).board
        = (clear_rows (merge_piece s.board s.shape s.shape_id s.px s.py)).1
    ∧ (lockPiece s inp).lock_delay = 0
    ∧ (lockPiece s inp).entry_timer = ENTRY_DELAY
    ∧ (lockPiece s inp).shape = SHAPES.getD s.nshape_id []
    ∧ (lockPiece s inp).das_left = 0 := by
  refine ⟨?_, ?_, ?_, ?_, ?_⟩ <;>
    (simp only [lockPiece]; split <;> rfl)

theorem lockCheck_not_locking_fields (t : GState) (inp : Input)
    (hb : check_collision t.board t.shape t.px (t.py + 1) = true)
    (hsmall : t.lock_delay + 1 < max_lock_delay) :
    (lockCheck t inp).lock_delay = t.lock_delay + 1
    ∧ (lockCheck t inp).py = t.py ∧ (lockCheck t inp).board = t.board := by
  rw [lockCheck_not_locking t inp hb hsmall]
  exact ⟨rfl, rfl, rfl⟩

theorem lockCheck_locking_fields (t : GState) (inp : Input)
    (hb : check_collision t.board t.shape t.px (t.py + 1) = true)
    (hge : max_lock_delay ≤ t.lock_delay + 1) :
    (lockCheck t inp).board
        = (clear_rows (merge_piece t.board t.shape t.shape_id t.px t.py)).1
    ∧ (lockCheck t inp).lock_delay = 0
    ∧ (lockCheck t inp).entry_timer = ENTRY_DELAY
    ∧ (lockCheck t inp).shape = SHAPES.getD t.nshape_id [] := by
  rw [lockCheck_locking t inp hb hge]
  exact ⟨(lockPiece_fields _ inp).1, (lockPiece_fields _ inp).2.1,
    (lockPiece_fields _ inp).2.2.1, (lockPiece_fields _ inp).2.2.2.1⟩

theorem gravityStep_das_left (s : GState) (soft : Bool) :
    (gravityStep s soft).das_left = s.das_left := by
  simp only [gravityStep]
  split <;> (try split) <;> rfl

theorem dasRightHeld_das_left (s : GState) :
    (dasRightHeld s).das_left = s.das_left := by
  simp only [dasRightHeld]
  split <;> (try split) <;> (try split) <;> (try split) <;> rfl

theorem lockCheck_das_left (s : GState) (inp : Input) :
    (lockCheck s inp).das_left = s.das_left ∨ (lockCheck s inp).das_left = 0 := by
  simp only [lockCheck]
  split
  · split
    · right
      exact (lockPiece_fields _ _).2.2.2.2
    · left; rfl
  · left; rfl

/-- A frame with no key-down events and no held keys. -/
def noKeys : Input :=
  { events := [], left := false, right := false, down := false, rand := 0 }

/-- A freshly spawned T piece on an empty board, entry timer running. -/
def c4State : GState :=
  { board := List.replicate 20 (List.replicate 10 0),
    shape := [[0,1,0],[1,1,1],[0,0,0]], shape_id := 1, px := 4, py := 0,
    entry_timer := 10, nshape_id := 0, score := 0, lines := 0, level := 0,
    starting_level := 0, statistics := List.replicate 7 0, drop_timer := 0,
    lock_delay := 0, das_left := 0, das_right := 0, game_over := false,
    paused := false, line_clear_timer := 0 }

def c4Input : Input :=
  { events := [Event.up], left := false, right := false, down := false, rand := 0 }

/-- C4 counterexample: with `entry_timer = 10` a `K_UP` key-down event
still rotates the piece in the same frame — the event loop is gated only
on pause and game over, not on the entry timer (which merely decrements). -/
theorem c4_counterexample :
    0 < c4State.entry_timer
    ∧ (frame c4State c4Input).shape ≠ c4State.shape
    ∧ (frame c4State c4Input).entry_timer = 9 :=
  ⟨by decide, by decide, by decide⟩

/-- C4 (amended): while the entry timer is positive the per-frame
simulation is suspended — no DAS movement or accumulation, no drop-timer
advance — and the frame only decrements the timer; edge-triggered
rotation and hard drop, however, are still processed by the event loop,
gated only on pause and game over. -/
theorem c4_entry_delay (s : GState) (inp : Input)
    (hgo : s.game_over = false) (hp : s.paused = false)
    (hentry : 0 < s.entry_timer) (hev : inp.events = []) :
    frame s inp = { s with entry_timer := s.entry_timer - 1 } := by
  simp only [frame]
  rw [hev]
  simp only [List.foldl_nil]
  rw [if_pos ⟨hgo, hp⟩]
  simp only [simStep]
  rw [if_pos hentry]

/-- Witness for C4: the state of the counterexample, with no events,
only counts its entry timer down. -/
theorem c4_witness : frame c4State noKeys = { c4State with entry_timer := 9 } := by
  have h := c4_entry_delay c4State noKeys rfl rfl (by decide) rfl
  rw [h]
  decide

/-- An O piece resting on the floor of an empty board, drop timer about
to fire (level 0 speed is 48), lock delay zero. -/
def c3State : GState :=
  { board := List.replicate 20 (List.replicate 10 0),
    shape := [[1,1],[1,1]], shape_id := 4, px := 4, py := 18,
    entry_timer := 0, nshape_id := 0, score := 0, lines := 0, level := 0,
    starting_level := 0, statistics := List.replicate 7 0, drop_timer := 47,
    lock_delay := 0, das_left := 0, das_right := 0, game_over := false,
    paused := false, line_clear_timer := 0 }

/-- C3 counterexample: a frame in which the blocked piece's drop timer
fires increments the lock-delay accumulator twice (once in the gravity
branch, once in the lock re-check), not exactly once. -/
theorem c3_counterexample :
    check_collision c3State.board c3State.shape c3State.px (c3State.py + 1) = true
    ∧ c3State.lock_delay = 0
    ∧ (frame c3State noKeys).lock_delay = 2 :=
  ⟨by decide, by decide, by decide⟩

/-- C3 (amended): in a frame with no events and no held direction keys,
a piece blocked from falling gains 2 lock-delay units when the drop
timer fires and 1 otherwise; if the accumulated value stays below 30 the
piece and board are unchanged, and once it reaches 30 the piece locks
(merge and clear the board, reset the lock delay, spawn the next piece
with a fresh entry delay); any successful gravity descent (the drop
timer firing with the way down free) resets the accumulator to zero. -/
theorem c3_lock_delay_amended :
    (∀ (s : GState) (inp : Input),
      s.game_over = false → s.paused = false → inp.events = [] →
      s.entry_timer = 0 → s.line_clear_timer = 0 →
      inp.left = false → inp.right = false →
      check_collision s.board s.shape s.px (s.py + 1) = true →
      ((effDropSpeed s.level inp.down ≤ s.drop_timer + 1 →
          s.lock_delay + 2 < max_lock_delay →
          (frame s inp).lock_delay = s.lock_delay + 2
          ∧ (frame s inp).py = s.py ∧ (frame s inp).board = s.board)
        ∧ (¬ effDropSpeed s.level inp.down ≤ s.drop_timer + 1 →
          s.lock_delay + 1 < max_lock_delay →
          (frame s inp).lock_delay = s.lock_delay + 1
          ∧ (frame s inp).py = s.py ∧ (frame s inp).board = s.board)
        ∧ (effDropSpeed s.level inp.down ≤ s.drop_timer + 1 →
          max_lock_delay ≤ s.lock_delay + 2 →
          (frame s inp).board
              = (clear_rows (merge_piece s.board s.shape s.shape_id s.px s.py)).1
          ∧ (frame s inp).lock_delay = 0
          ∧ (frame s inp).entry_timer = ENTRY_DELAY
          ∧ (frame s inp).shape = SHAPES.getD s.nshape_id [])
        ∧ (¬ effDropSpeed s.level inp.down ≤ s.drop_timer + 1 →
          max_lock_delay ≤ s.lock_delay + 1 →
          (frame s inp).board
              = (clear_rows (merge_piece s.board s.shape s.shape_id s.px s.py)).1
          ∧ (frame s inp).lock_delay = 0
          ∧ (frame s inp).entry_timer = ENTRY_DELAY
          ∧ (frame s inp).shape = SHAPES.getD s.nshape_id [])))
    ∧ (∀ (s : GState) (soft : Bool),
        effDropSpeed s.level soft ≤ s.drop_timer + 1 →
        check_collision s.board s.shape s.px (s.py + 1) = false →
        (gravityStep s soft).lock_delay = 0 ∧ (gravityStep s soft).py = s.py + 1) := by
  constructor
  · intro s inp hgo hp hev hentry hlct hl hr hb
    have hpre : frame s inp
        = lockCheck (gravityStep { s with das_left := 0, das_right := 0 } inp.down) inp := by
      simp only [frame]
      rw [hev]
      simp only [List.foldl_nil]
      rw [if_pos ⟨hgo, hp⟩]
      simp only [simStep]
      rw [if_neg (by omega), if_neg (by omega)]
      simp only [dasPhase]
      rw [if_neg (by simp [hr]), if_neg (by simp [hl])]
    refine ⟨?_, ?_, ?_, ?_⟩
    · intro hf hsmall
      have hgrav := gravity_blocked_fired
        { s with das_left := 0, das_right := 0 } inp.down hf hb
      rw [hpre, hgrav]
      exact lockCheck_not_locking_fields _ inp hb
        (by show s.lock_delay + 1 + 1 < max_lock_delay; omega)
    · intro hnf hsmall
      have hgrav := gravity_blocked_notfired
        { s with das_left := 0, das_right := 0 } inp.down hnf
      rw [hpre, hgrav]
      exact lockCheck_not_locking_fields _ inp hb
        (by show s.lock_delay + 1 < max_lock_delay; omega)
    · intro hf hge
      have hgrav := gravity_blocked_fired
        { s with das_left := 0, das_right := 0 } inp.down hf hb
      rw [hpre, hgrav]
      exact lockCheck_locking_fields _ inp hb
        (by show max_lock_delay ≤ s.lock_delay + 1 + 1; omega)
    · intro hnf hge
      have hgrav := gravity_blocked_notfired
        { s with das_left := 0, das_right := 0 } inp.down hnf
      rw [hpre, hgrav]
      exact lockCheck_locking_fields _ inp hb
        (by show max_lock_delay ≤ s.lock_delay + 1; omega)
  · intro s soft hf hnb
    rw [gravity_unblocked_fired s soft hf hnb]
    exact ⟨rfl, rfl⟩

/-- The same O piece still falling: one row above its landing position. -/
def c3StateUp : GState := { c3State with py := 0 }

/-- Witness for C3: the counterexample state gains two lock-delay units
via the amended theorem, and a firing drop with a free way down resets
the accumulator while descending one row. -/
theorem c3_witness :
    (frame c3State noKeys).lock_delay = 2
    ∧ (gravityStep c3StateUp false).lock_delay = 0
    ∧ (gravityStep c3StateUp false).py = c3StateUp.py + 1 := by
  have h1 := (c3_lock_delay_amended.1 c3State noKeys rfl rfl rfl rfl rfl rfl rfl
    (by decide)).1 (by decide) (by decide)
  have h2 := c3_lock_delay_amended.2 c3StateUp false (by decide) (by decide)
  exact ⟨h1.1, h2.1, h2.2⟩

/-- Move attempts performed by one held left-DAS frame as a function of
the accumulator at frame start: one initial attempt at zero, plus one
when the post-increment value satisfies the delay/rate condition. -/
def dasAtt (acc : Nat) : Nat :=
  (if acc = 0 then 1 else 0)
  + (if DAS_DELAY ≤ acc + 1 ∧ (acc + 1 - DAS_DELAY) % DAS_RATE = 0 then 1 else 0)

theorem dasLeftHeld_das (s : GState) :
    (dasLeftHeld s).1.das_left = s.das_left + 1 := by
  simp only [dasLeftHeld]
  split <;> (try split) <;> (try split) <;> (try split) <;> rfl

theorem dasLeftHeld_count (s : GState) :
    (dasLeftHeld s).2 = dasAtt s.das_left := by
  simp only [dasLeftHeld, dasAtt]
  by_cases h0 : s.das_left = 0
  · by_cases hc : check_collision s.board s.shape (s.px - 1) s.py = false <;>
      simp [h0, hc, DAS_DELAY, DAS_RATE]
  · by_cases hd : DAS_DELAY ≤ s.das_left + 1 ∧ (s.das_left + 1 - DAS_DELAY) % DAS_RATE = 0 <;>
      simp [h0, hd]

/-- Iterating the held left-DAS block over `n` frames, counting the
total number of move attempts. -/
def dasLeftRun : GState → Nat → GState × Nat
  | s, 0 => (s, 0)
  | s, n + 1 =>
    let p := dasLeftHeld s
    let q := dasLeftRun p.1 n
    (q.1, p.2 + q.2)

theorem dasLeftRun_das (n : Nat) :
    ∀ s : GState, (dasLeftRun s n).1.das_left = s.das_left + n := by
  induction n with
  | zero => intro s; rfl
  | succ n ih =>
    intro s
    simp only [dasLeftRun]
    rw [ih, dasLeftHeld_das]
    omega

theorem dasLeftRun_count (n : Nat) :
    ∀ s : GState,
    (dasLeftRun s n).2 = ((List.range n).map fun j => dasAtt (s.das_left + j)).sum := by
  induction n with
  | zero => intro s; rfl
  | succ n ih =>
    intro s
    simp only [dasLeftRun]
    rw [ih, dasLeftHeld_count, dasLeftHeld_das]
    rw [List.range_succ_eq_map]
    simp only [List.map_cons, List.map_map, List.sum_cons, Nat.add_zero]
    have hmap : (List.map ((fun j => dasAtt (s.das_left + j)) ∘ Nat.succ) (List.range n))
        = List.map (fun j => dasAtt (s.das_left + 1 + j)) (List.range n) := by
      apply List.map_congr_left
      intro j _
      simp only [Function.comp]
      congr 1
      omega
    rw [hmap]

/-- C5: from a zero accumulator, a continuously held LEFT key attempts a
move on frame 1, then on exactly the frames whose accumulator value `i`
satisfies `DAS_DELAY ≤ i` and `(i - DAS_DELAY) % DAS_RATE = 0`; holding
16 frames gives exactly 2 attempts and 22 frames exactly 3; a frame with
the key released (and the piece active) resets the accumulator to 0. -/
theorem c5_das_timing :
    (∀ s : GState, s.das_left = 0 →
      (dasLeftRun s 16).2 = 2 ∧ (dasLeftRun s 22).2 = 3)
    ∧ (∀ (s : GState) (i : Nat), s.das_left = 0 → 1 ≤ i →
      (dasLeftHeld (dasLeftRun s (i - 1)).1).2
        = if i = 1 ∨ (DAS_DELAY ≤ i ∧ (i - DAS_DELAY) % DAS_RATE = 0) then 1 else 0)
    ∧ (∀ (s : GState) (inp : Input), s.entry_timer = 0 → s.line_clear_timer = 0 →
      inp.left = false → (simStep s inp).das_left = 0) := by
  refine ⟨?_, ?_, ?_⟩
  · intro s hz
    constructor
    · rw [dasLeftRun_count 16 s, hz]
      decide
    · rw [dasLeftRun_count 22 s, hz]
      decide
  · intro s i hz hi
    rw [dasLeftHeld_count, dasLeftRun_das, hz, Nat.zero_add]
    have hone : i - 1 + 1 = i := by omega
    simp only [dasAtt, hone]
    by_cases h1 : i = 1
    · subst h1
      simp [DAS_DELAY, DAS_RATE]
    · have h1' : ¬ (i - 1 = 0) := by omega
      rw [if_neg h1']
      by_cases h2 : DAS_DELAY ≤ i ∧ (i - DAS_DELAY) % DAS_RATE = 0
      · rw [if_pos h2, if_pos (Or.inr h2)]
      · rw [if_neg h2, if_neg (by tauto)]
  · intro s inp hentry hlct hl
    simp only [simStep]
    rw [if_neg (by omega), if_neg (by omega)]
    have hdas0 : (dasPhase s inp).das_left = 0 := by
      simp only [dasPhase]
      have hlneg : ¬ (inp.left = true) := by simp [hl]
      rw [if_neg hlneg]
      split
      · rw [dasRightHeld_das_left]
      · rfl
    have hg : (gravityStep (dasPhase s inp) inp.down).das_left = 0 := by
      rw [gravityStep_das_left, hdas0]
    rcases lockCheck_das_left (gravityStep (dasPhase s inp) inp.down) inp with h | h
    · rw [h, hg]
    · rw [h]

/-- Witness for C5: a concrete fresh piece state gives 2 attempts over 16
held frames and 3 over 22, and a frame without LEFT held resets the
accumulator. -/
theorem c5_witness :
    (dasLeftRun c4State 16).2 = 2 ∧ (dasLeftRun c4State 22).2 = 3
    ∧ (simStep c3State noKeys).das_left = 0 := by
  refine ⟨(c5_das_timing.1 c4State rfl).1, (c5_das_timing.1 c4State rfl).2, ?_⟩
  exact c5_das_timing.2.2 c3State noKeys rfl rfl rfl
